import Mathlib

/-!
# Verification of the System Optimal Solver (`so_solver.py`)

A shallow embedding of the System Optimal Solver: the network-file parser
(`generateGraph`), the cost linearizer (`SOSolver._get_cost_function_parameters`),
the multi-commodity model builder (flow-conservation and cost-epigraph
constraint generation), and the post-solve normalization in `SOSolver.solve`.

Python strings are modelled as `List Char`; Python `float` values are modelled
as `ℚ` (the float computations performed by the program are embedded exactly,
ignoring rounding, which none of the verified properties depend on); Python
`dict`s are modelled as insertion-ordered association lists with an
update-in-place `dictSet`; exceptions are modelled with `Option`/`Except`.
The external libraries (`docplex` solver backend and the `py_expression_eval`
expression evaluator) are collaborators outside the repository: the solver
backend's answer enters as an explicit parameter, and the rendered text of a
substituted cost expression (produced by `Expression.substitute`/`toString`)
enters the linearizer as its string input, exactly as in the source.
-/

namespace SO

/-- Python strings, modelled as lists of characters. -/
abbrev Str := List Char

/-- Python `s.rstrip()`: remove trailing whitespace (so_solver.py line 98). -/
def pyRstrip (s : Str) : Str := (s.reverse.dropWhile Char.isWhitespace).reverse

/-- Python `s.replace('(', '').replace(')', '')` from
`_get_cost_function_parameters` (line 249): parentheses are single characters,
so the two replacements amount to a filter. -/
def stripParens (s : Str) : Str :=
  s.filter (fun c => decide (c ≠ '(') && decide (c ≠ ')'))

/-- Python `s.split(c)` for a one-character separator `c`: the pieces of `s`
between occurrences of `c` (empty pieces included), as in
`f.split('+')` (line 254) and `k.split('|')` (lines 198-200). -/
def pySplit (c : Char) : Str → List Str
  | [] => [[]]
  | a :: rest =>
    match pySplit c rest with
    | [] => [[]]
    | h :: t => if a = c then [] :: h :: t else (a :: h) :: t

theorem dropWhile_length_le (p : Char → Bool) (l : Str) :
    (l.dropWhile p).length ≤ l.length := by
  induction l with
  | nil => simp
  | cons c rest ih =>
    by_cases h : p c
    · simpa [List.dropWhile, h] using Nat.le_succ_of_le ih
    · simp [List.dropWhile, h]

/-- Python `s.split()` (no argument, line 105): split on runs of whitespace,
dropping empty pieces. -/
def pyWords : Str → List Str
  | [] => []
  | c :: rest =>
    if c.isWhitespace then pyWords rest
    else (c :: rest.takeWhile (fun ch => !ch.isWhitespace))
      :: pyWords (rest.dropWhile (fun ch => !ch.isWhitespace))
termination_by s => s.length
decreasing_by
  · simp [Nat.lt_succ_iff]
  · exact Nat.lt_succ_of_le (dropWhile_length_le _ rest)

/-- Python `s.replace(pat, '')` for a string `pat`: remove the left-to-right
non-overlapping occurrences of `pat` (lines 262 and 266). -/
def removeSubstr (pat : Str) : Str → Str
  | [] => []
  | c :: rest =>
    if h : pat ≠ [] ∧ pat.isPrefixOf (c :: rest) then
      removeSubstr pat ((c :: rest).drop pat.length)
    else c :: removeSubstr pat rest
termination_by s => s.length
decreasing_by
  · have hlen : 0 < pat.length := List.length_pos.mpr h.1
    simp only [List.length_drop, List.length_cons]
    omega
  · simp [Nat.lt_succ_iff]

/-- Python `s.find(pat) != -1`: whether `pat` occurs as a contiguous substring
of `s` (the only use the linearizer makes of `find`, lines 246, 250, 257, 261). -/
def containsSub (pat : Str) : Str → Bool
  | [] => pat.isEmpty
  | c :: rest => pat.isPrefixOf (c :: rest) || containsSub pat rest

/-- Numeric value of a digit string (most significant digit first). -/
def digitsToNat (ds : Str) : ℕ := ds.foldl (fun a c => a * 10 + (c.toNat - 48)) 0

/-- The exponent suffix of Python's `float()` grammar: empty, or
`('e'|'E') ('+'|'-')? digits`, yielding the scale factor `10^±exp`. -/
def parseExpPart : Str → Option ℚ
  | [] => some 1
  | c :: rest =>
    if c = 'e' ∨ c = 'E' then
      match rest with
      | '+' :: ds =>
        if ds ≠ [] ∧ ds.all Char.isDigit then some ((10:ℚ) ^ (digitsToNat ds : ℤ)) else none
      | '-' :: ds =>
        if ds ≠ [] ∧ ds.all Char.isDigit then some ((10:ℚ) ^ (-(digitsToNat ds : ℤ))) else none
      | ds =>
        if ds ≠ [] ∧ ds.all Char.isDigit then some ((10:ℚ) ^ (digitsToNat ds : ℤ)) else none
    else none

/-- Unsigned part of Python's `float()` grammar:
`digits ['.' digits] [exponent]`, needing at least one digit. -/
def parseUnsigned (s : Str) : Option ℚ :=
  let d1 := s.takeWhile Char.isDigit
  let r1 := s.dropWhile Char.isDigit
  match r1 with
  | '.' :: r2 =>
    let d2 := r2.takeWhile Char.isDigit
    let r3 := r2.dropWhile Char.isDigit
    if d1 = [] ∧ d2 = [] then none
    else (parseExpPart r3).map
      (fun e => ((digitsToNat d1 : ℚ) + (digitsToNat d2 : ℚ) / (10:ℚ) ^ d2.length) * e)
  | _ =>
    if d1 = [] then none
    else (parseExpPart r1).map (fun e => (digitsToNat d1 : ℚ) * e)

/-- Python `float(s)` on the token strings this program feeds it: optional
sign, then `digits ['.' digits] [('e'|'E') ('+'|'-')? digits]`. `none` models
the `ValueError` raised on any other shape. (The `inf`/`nan` spellings and
surrounding whitespace accepted by Python cannot reach `float` here: every
argument is a whitespace-split token or a rendered expression.) -/
def parseFloat : Str → Option ℚ
  | '+' :: r => parseUnsigned r
  | '-' :: r => (parseUnsigned r).map Neg.neg
  | s => parseUnsigned s

/-- The slope computation of `_get_cost_function_parameters` on the term `m`
that contains the flow variable (lines 260-266): if `m` contains `'*'` the
slope is `float(m.replace(var, '').replace('*', ''))`; otherwise it is
`1 / float(m.replace(var, '').replace('/', ''))`. `none` models the
`ValueError` of a failed `float` and the `ZeroDivisionError` of `1/0.0`. -/
def slopeOf (var m : Str) : Option ℚ :=
  if '*' ∈ m then
    parseFloat ((removeSubstr var m).filter (fun c => decide (c ≠ '*')))
  else
    match parseFloat ((removeSubstr var m).filter (fun c => decide (c ≠ '/'))) with
    | some q => if q = 0 then none else some (1 / q)
    | none => none

/-- `SOSolver._get_cost_function_parameters` (lines 237-269), from the point
where the substituted cost expression has been rendered to the string `f`
(the substitution and rendering themselves are performed by the external
expression-evaluator library). Returns `some (slope, intercept)`; `none`
models every exception path: the `ValueError` of `float` on a non-literal,
the `ValueError` of unpacking `f.split('+')` when it has more than two
pieces, the `AttributeError` of calling `find` on the float `0.0` after the
swap in the no-`'+'` case, and the `ZeroDivisionError` of `1/0.0`. -/
def get_cost_function_parameters (var f : Str) : Option (ℚ × ℚ) :=
  if containsSub var f then
    match pySplit '+' (stripParens f) with
    | [m1] =>
      if containsSub var m1 then (slopeOf var m1).map (fun mq => (mq, (0:ℚ)))
      else none
    | [m1, n1] =>
      match slopeOf var (if containsSub var m1 then m1 else n1),
            parseFloat (if containsSub var m1 then n1 else m1) with
      | some mq, some nq => some (mq, nq)
      | _, _ => none
    | _ => none
  else
    (parseFloat f).map (fun v => ((0:ℚ), v))

/-- Identifier characters of the modelled expression tokenizer. -/
def isIdentChar (c : Char) : Bool := c.isAlpha || c.isDigit || decide (c = '_')

/-- Identifier occurrences of an expression string, in textual order.
Together with `exprVars` below this models the external expression
evaluator's `Expression.variables()` (py_expression_eval), which the parser
calls on line 120: the free variables of the parsed expression in order of
first occurrence.  The library is an external collaborator; only this
interface of it is relied on by the program.  Maximal alphanumeric runs
starting with a letter are identifiers; digit-led runs are numeric literals
and are skipped. -/
def exprVarsAux : Str → List Str
  | [] => []
  | c :: rest =>
    if c.isAlpha then
      (c :: rest.takeWhile isIdentChar) :: exprVarsAux (rest.dropWhile isIdentChar)
    else if c.isDigit then
      exprVarsAux (rest.dropWhile (fun ch => ch.isDigit || decide (ch = '.')))
    else exprVarsAux rest
termination_by s => s.length
decreasing_by
  · exact Nat.lt_succ_of_le (dropWhile_length_le _ rest)
  · exact Nat.lt_succ_of_le (dropWhile_length_le _ rest)
  · simp [Nat.lt_succ_iff]

/-- First-occurrence deduplication, as `Expression.variables()` returns each
free variable once. -/
def dedupKeepFirst (l : List Str) : List Str :=
  l.foldl (fun acc v => if v ∈ acc then acc else acc ++ [v]) []

/-- Model of `Expression.variables()`: see `exprVarsAux`. -/
def exprVars (s : Str) : List Str := dedupKeepFirst (exprVarsAux s)

/-- Python `list.remove(x)` guarded by `if x in list` (lines 121-122): drop
the first occurrence of `x`, or leave the list unchanged if absent. -/
def removeFirst (x : Str) : List Str → List Str
  | [] => []
  | a :: r => if a = x then r else a :: removeFirst x r

/-- Python `dict` assignment `d[k] = v` on an insertion-ordered association
list: overwrite in place if the key exists, else append. -/
def dictSet {β : Type} (k : Str) (v : β) : List (Str × β) → List (Str × β)
  | [] => [(k, v)]
  | (k', v') :: rest => if k' = k then (k, v) :: rest else (k', v') :: dictSet k v rest

/-- Python `dict` lookup `d[k]`: `none` models the `KeyError`. -/
def dictGet {β : Type} (k : Str) : List (Str × β) → Option β
  | [] => none
  | (k', v') :: rest => if k' = k then some v' else dictGet k rest

/-- A stored cost function `F[name] = [params[0], constants, function]`
(line 125): parameter name, constant names (free variables of the expression
minus the parameter, in first-occurrence order), and the expression, kept as
its source text since evaluation happens in the external library. -/
structure FuncDef where
  param : Str
  constants : List Str
  expr : Str
deriving DecidableEq

/-- An `Edge` (lines 43-71): name `"start-end"`, endpoints, the shared
cost-function template, the flow-parameter name (`self.var`), and
`paramsRef`, the identity of its `param_values` dictionary.  Python passes
dictionaries by reference, so the dictionary contents live in a separate
heap (`PState.heap`, indexed by `paramsRef`) — two edges built from one
`edge` line share a single dictionary (lines 134-141).  The `flow`/`cost`/
`aux_flow` fields are omitted: `cost` is computed by the external expression
evaluator and none of the verified properties mention them. -/
structure PEdge where
  name : Str
  start : Str
  end_ : Str
  func : FuncDef
  var : Str
  paramsRef : Nat
deriving DecidableEq

/-- `Edge.update_cost` (lines 63-68) as far as it touches program state:
`self.params[self.var] = self.flow` overwrites the flow-parameter entry of
the edge's (possibly shared) parameter dictionary.  The subsequent
`self.cost = self.function[2].evaluate(self.params)` call goes to the
external expression evaluator and reads, but does not modify, the state. -/
def update_cost (e : PEdge) (flow : ℚ) (heap : List (List (Str × ℚ))) :
    List (List (Str × ℚ)) :=
  heap.set e.paramsRef (dictSet e.var flow (heap.getD e.paramsRef []))

/-- The exceptions `generateGraph` can raise, with the data each one
carries.  `multiParam` is the `Exception` of lines 113-114 (its message
interpolates only the declared parameter names); `badLine` is the
`Exception` of lines 148-149 (its message interpolates the line number and
the stripped line text); `keyError` is the `KeyError` of the `F[taglist[4]]`
lookup (line 132); `valueError` is the `ValueError` of a failed `float`;
`indexError` is the `IndexError` of a too-short token list. -/
inductive PError where
  | multiParam (params : List Str)
  | badLine (lineid : Nat) (line : Str)
  | keyError (key : Str)
  | valueError (tok : Str)
  | indexError
deriving DecidableEq

/-- Which line number and line text an error's message carries:
only the unknown-keyword error of lines 148-149 interpolates them. -/
def errLineInfo : PError → Option (Nat × Str)
  | .badLine i l => some (i, l)
  | _ => none

/-- The parser's accumulated result: `V` (node names), `E` (edges), `F`
(cost functions), `OD` (demands), plus the heap of `param_values`
dictionaries referenced by the edges. -/
structure PState where
  V : List Str
  E : List PEdge
  F : List (Str × FuncDef)
  OD : List (Str × ℚ)
  heap : List (List (Str × ℚ))
deriving DecidableEq

/-- `dict(zip(function[1], map(float, taglist[5:])))` (line 134): pair the
constants with the value tokens (`zip` stops at the shorter list; `map` is
lazy, so only consumed tokens are ever passed to `float`), failing with the
`ValueError` of the first unparseable consumed token. -/
def zipParse : List (Str × Str) → Except PError (List (Str × ℚ))
  | [] => .ok []
  | (c, tok) :: rest =>
    match parseFloat tok with
    | none => .error (.valueError tok)
    | some q => (zipParse rest).map (fun l => (c, q) :: l)

/-- One iteration of the `generateGraph` line loop (lines 95-149): rstrip,
strip the `#` comment, whitespace-split, then dispatch on the keyword.
Mirrors the source's order of dictionary/index accesses so that the modelled
exception is the one Python would raise first. -/
def processLine (flow : ℚ) (lineid : Nat) (st : PState) (raw : Str) :
    Except PError PState :=
  let line := (pyRstrip raw).takeWhile (fun c => decide (c ≠ '#'))
  match pyWords line with
  | [] => .ok st
  | kw :: rest =>
    if kw = "function".toList then
      match rest with
      | nm :: ps :: rest2 =>
        let params := pySplit ',' ((ps.drop 1).dropLast)
        if params.length > 1 then .error (.multiParam params)
        else
          match rest2 with
          | ex :: _ =>
            let p0 := params.headI
            let consts := removeFirst p0 (exprVars ex)
            .ok { st with F := dictSet nm ⟨p0, consts, ex⟩ st.F }
          | [] => .error .indexError
      | _ => .error .indexError
    else if kw = "node".toList then
      match rest with
      | nm :: _ => .ok { st with V := st.V ++ [nm] }
      | [] => .error .indexError
    else if kw = "dedge".toList ∨ kw = "edge".toList then
      match rest with
      | _nm :: s :: t :: fn :: ctoks =>
        match dictGet fn st.F with
        | none => .error (.keyError fn)
        | some fd =>
          match zipParse (List.zip fd.constants ctoks) with
          | .error e => .error e
          | .ok pairs =>
            let c0 := pairs.foldl (fun d cq => dictSet cq.1 cq.2 d) []
            let c1 := dictSet fd.param flow c0
            let c2 := dictSet fd.param 0 c1
            let cell := if kw = "edge".toList then dictSet fd.param 0 c2 else c2
            let ref := st.heap.length
            let e1 : PEdge := ⟨s ++ '-' :: t, s, t, fd, fd.param, ref⟩
            let e2 : PEdge := ⟨t ++ '-' :: s, t, s, fd, fd.param, ref⟩
            let es := if kw = "edge".toList then [e1, e2] else [e1]
            .ok { st with E := st.E ++ es, heap := st.heap ++ [cell] }
      | _ => .error .indexError
    else if kw = "od".toList then
      match rest with
      | nm :: o :: d :: rest2 =>
        if o ≠ d then
          match rest2 with
          | dm :: _ =>
            match parseFloat dm with
            | some q => .ok { st with OD := dictSet nm q st.OD }
            | none => .error (.valueError dm)
          | [] => .error .indexError
        else .ok st
      | _ => .error .indexError
    else .error (.badLine lineid line)

/-- The `generateGraph` line loop from line number `i` on state `st`:
the first exception aborts parsing, so no partial graph escapes. -/
def parseLines (flow : ℚ) : Nat → PState → List Str → Except PError PState
  | _, st, [] => .ok st
  | i, st, l :: ls =>
    match processLine flow i st l with
    | .ok st' => parseLines flow (i+1) st' ls
    | .error e => .error e

/-- The parser's initial state (lines 89-92). -/
def emptyPState : PState := ⟨[], [], [], [], []⟩

/-- `generateGraph(graph_file, flow)` (lines 74-151) on the file's lines. -/
def generateGraph (lines : List Str) (flow : ℚ) : Except PError PState :=
  parseLines flow 1 emptyPState lines

/-- Run a fallible step over a list, left to right, aborting at the first
failure — the effect of a Python `for` loop whose body may raise. -/
def optionMapM {α β : Type} (f : α → Option β) : List α → Option (List β)
  | [] => some []
  | x :: xs =>
    match f x, optionMapM f xs with
    | some y, some ys => some (y :: ys)
    | _, _ => none

/-- `k.split('|')[0]` — the origin encoded in an OD key (line 198). -/
def odOrigin (k : Str) : Str := (pySplit '|' k).headI

/-- `k.split('|')[1]` — the destination encoded in an OD key (line 200);
`none` models the `IndexError` when the key contains no `'|'`. -/
def odDest (k : Str) : Option Str := (pySplit '|' k)[1]?

/-- A generated flow-conservation equality constraint: its Cplex label
(`n.name+k`, line 206), its left-hand side as a formal linear combination of
the per-OD flow variables (keyed as in the `x_vars` dictionary by
`edge.name+k`), and its right-hand side. -/
structure FCons where
  label : Str
  terms : List (Str × ℤ)
  rhs : ℚ
deriving DecidableEq

/-- The left side built on lines 190-196 and 205-206: coefficient `+1` for
each `x` of an edge classified `arriving` (`elif edge.end == n`), `-1` for
each classified `leaving` (`if edge.start == n`) — an edge with
`start == end == n` is classified only as leaving. -/
def fcTerms (edges : List PEdge) (k n : Str) : List (Str × ℤ) :=
  let leaving := edges.filter (fun e => decide (e.start = n))
  let arriving := edges.filter (fun e => decide (¬ e.start = n) && decide (e.end_ = n))
  arriving.map (fun e => (e.name ++ k, (1:ℤ))) ++ leaving.map (fun e => (e.name ++ k, (-1:ℤ)))

/-- The constraint `_generate_flow_conservation_constraint` emits for one OD
pair `k` (demand `d`) and one node `n` (lines 188-206); `none` models the
`IndexError` of `k.split('|')[1]` on a key without `'|'`. -/
def mkFlowCons (edges : List PEdge) (k : Str) (d : ℚ) (n : Str) : Option FCons :=
  if n = odOrigin k then some ⟨n ++ k, fcTerms edges k n, -d⟩
  else
    match odDest k with
    | some dst => some ⟨n ++ k, fcTerms edges k n, if n = dst then d else 0⟩
    | none => none

/-- `SOSolver._generate_flow_conservation_constraint` (lines 185-206): one
constraint per OD pair (outer loop) per node (inner loop), in order. -/
def generate_flow_conservation_constraint (nodes : List Str) (edges : List PEdge)
    (od : List (Str × ℚ)) : Option (List FCons) :=
  (optionMapM (fun kd => optionMapM (fun n => mkFlowCons edges kd.1 kd.2 n) nodes) od).map
    List.flatten

/-- The flow-conservation constraint as the specification words it, for the
refinement comparison with `mkFlowCons`: the sum of `x_{e,k}` over edges
arriving at `n` (those with `end = n`) minus the sum over edges leaving `n`
(those with `start = n`), equal to `-d` at the origin `o` of `k`, `+d` at
its destination `dst`, and `0` elsewhere. -/
def specFlowCons (edges : List PEdge) (k : Str) (d : ℚ) (o dst n : Str) : FCons :=
  ⟨n ++ k,
   (edges.filter (fun e => decide (e.end_ = n))).map (fun e => (e.name ++ k, (1:ℤ)))
     ++ (edges.filter (fun e => decide (e.start = n))).map (fun e => (e.name ++ k, (-1:ℤ))),
   if n = o then -d else if n = dst then d else 0⟩

/-- A generated cost-epigraph constraint: the left side as formal
`(variable, power, coefficient)` monomials, `≤` the variable on the right.
Variable names follow `_generate_vars` (lines 178-183): `l_`/`phi_` plus the
edge name with `'-'` removed. -/
structure CostCons where
  terms : List (Str × ℕ × ℚ)
  rhsVar : Str
deriving DecidableEq

/-- `e.name.replace("-", "")` (line 179). -/
def cplexVarName (e : PEdge) : Str := e.name.filter (fun c => decide (c ≠ '-'))

/-- The name of the total-flow variable `l_…` of an edge (line 181). -/
def lVarName (e : PEdge) : Str := 'l' :: '_' :: cplexVarName e

/-- The name of the cost variable `phi_…` of an edge (line 180). -/
def phiVarName (e : PEdge) : Str := 'p' :: 'h' :: 'i' :: '_' :: cplexVarName e

/-- `SOSolver._generate_cost_constraint` (lines 222-232): for each edge, get
`(m, n)` from the linearizer and add `m*l_e**2 + l_e*n <= phi_e`.  `render`
supplies the text of the edge's substituted cost expression — the rendering
itself is done by the external expression evaluator inside
`_get_cost_function_parameters` (lines 239-243).  `none` models the
propagated exception when linearization fails for some edge. -/
def generate_cost_constraint (render : PEdge → Str) (edges : List PEdge) :
    Option (List CostCons) :=
  optionMapM (fun e =>
    (get_cost_function_parameters e.var (render e)).map
      (fun p => ⟨[(lVarName e, 2, p.1), (lVarName e, 1, p.2)], phiVarName e⟩)) edges

/-- The solver-facing state of `SOSolver`: `system_optimum`, initialised to
the sentinel `-1` (line 166), and `sum_flows`, the total demand
(line 167). -/
structure SOState where
  system_optimum : ℚ
  sum_flows : ℚ
deriving DecidableEq

/-- `SOSolver.__init__` (lines 166-167): `system_optimum = -1`,
`sum_flows = sum(od_matrix.values())`. -/
def initSOState (od : List (Str × ℚ)) : SOState := ⟨-1, (od.map Prod.snd).sum⟩

/-- What `SOSolver.solve` does after the backend call (lines 280-295):
`solved` = a solution was returned and `system_optimum` was updated;
`noSolutionPrinted` = the backend returned no solution, `'Error calculating
System Optimum!'` was printed and the state was left unchanged;
`zeroDivisionError` = a solution was returned but
`solution.get_objective_value()/self.sum_flows` raised `ZeroDivisionError`
(Python raises it for float division by zero). -/
inductive SolveOutcome where
  | solved (st : SOState)
  | noSolutionPrinted (st : SOState)
  | zeroDivisionError
deriving DecidableEq

/-- The post-backend part of `SOSolver.solve` (lines 280-295), with the
external solver's answer (`None` or an objective value) as an explicit
parameter. -/
def solveStep (backend : Option ℚ) (st : SOState) : SolveOutcome :=
  match backend with
  | some obj =>
    if st.sum_flows = 0 then .zeroDivisionError
    else .solved { st with system_optimum := obj / st.sum_flows }
  | none => .noSolutionPrinted st

/-- `SOSolver.get_system_optimum` (lines 297-299). -/
def get_system_optimum (st : SOState) : ℚ := st.system_optimum

/-! ### String lemmas -/

theorem isPrefixOf_self_append (v b : Str) : v.isPrefixOf (v ++ b) = true := by
  induction v with
  | nil => simp [List.isPrefixOf]
  | cons a v ih => simp [List.isPrefixOf, ih]

theorem isPrefixOf_eq_take {v s : Str} (h : v.isPrefixOf s = true) :
    v = s.take v.length := by
  induction v generalizing s with
  | nil => simp
  | cons a v ih =>
    cases s with
    | nil => simp [List.isPrefixOf] at h
    | cons b s =>
      simp only [List.isPrefixOf, Bool.and_eq_true, beq_iff_eq] at h
      obtain ⟨rfl, h2⟩ := h
      simp [List.take_succ_cons, ← ih h2]

theorem take_isPrefixOf (n : ℕ) (s : Str) : (s.take n).isPrefixOf s = true := by
  induction s generalizing n with
  | nil => simp [List.isPrefixOf]
  | cons a s ih =>
    cases n with
    | zero => simp [List.isPrefixOf]
    | succ n => simp [List.isPrefixOf, ih]

theorem isPrefixOf_length_le {v s : Str} (h : v.isPrefixOf s = true) :
    v.length ≤ s.length := by
  induction v generalizing s with
  | nil => simp
  | cons a v ih =>
    cases s with
    | nil => simp [List.isPrefixOf] at h
    | cons b s =>
      simp only [List.isPrefixOf, Bool.and_eq_true, beq_iff_eq] at h
      simpa using ih h.2

theorem isPrefixOf_trans_le {v w s : Str} (hv : v.isPrefixOf s = true)
    (hw : w.isPrefixOf s = true) (hl : v.length ≤ w.length) :
    v.isPrefixOf w = true := by
  have h3 : w.take v.length = s.take v.length := by
    rw [isPrefixOf_eq_take hw]
    rw [List.take_take, inf_eq_left.mpr hl]
  have h4 : v = w.take v.length := by rw [h3, ← isPrefixOf_eq_take hv]
  rw [h4]
  exact take_isPrefixOf _ _

theorem mem_of_isPrefixOf {v s : Str} {x : Char} (h : v.isPrefixOf s = true)
    (hx : x ∈ v) : x ∈ s := by
  rw [isPrefixOf_eq_take h] at hx
  exact List.take_subset _ _ hx

theorem containsSub_eq_false_cons {v : Str} {c : Char} {t : Str}
    (h : containsSub v (c :: t) = false) :
    v.isPrefixOf (c :: t) = false ∧ containsSub v t = false := by
  simpa [containsSub] using h

theorem containsSub_self_append (v b : Str) : containsSub v (v ++ b) = true := by
  cases hvb : v ++ b with
  | nil =>
    have hv := (List.append_eq_nil.mp hvb).1
    subst hv
    rfl
  | cons c t =>
    have h1 : v.isPrefixOf (v ++ b) = true := isPrefixOf_self_append v b
    rw [hvb] at h1
    simp [containsSub, h1]

theorem containsSub_append_right (v a : Str) : containsSub v (a ++ v) = true := by
  induction a with
  | nil => simpa using containsSub_self_append v []
  | cons c a ih => simp [containsSub, ih]

theorem containsSub_concat {v a : Str} {c : Char} (hv : v ≠ [])
    (h : containsSub v (a ++ [c]) = true) :
    c ∈ v ∨ containsSub v a = true := by
  induction a with
  | nil =>
    left
    simp only [List.nil_append, containsSub, List.isEmpty_iff, Bool.or_eq_true] at h
    rcases h with h1 | h2
    · cases v with
      | nil => exact absurd rfl hv
      | cons x v' =>
        cases v' with
        | nil =>
          simp only [List.isPrefixOf, Bool.and_eq_true, beq_iff_eq] at h1
          simp [h1.1]
        | cons y v'' => simp [List.isPrefixOf] at h1
    · exact absurd h2 hv
  | cons x a ih =>
    rw [List.cons_append] at h
    simp only [containsSub, Bool.or_eq_true] at h
    rcases h with h1 | h2
    · by_cases hlen : v.length ≤ (x :: a).length
      · right
        have hw : (x :: a).isPrefixOf ((x :: a) ++ [c]) = true := isPrefixOf_self_append _ _
        rw [List.cons_append] at hw
        have h5 := isPrefixOf_trans_le h1 hw (by simpa using hlen)
        simp [containsSub, h5]
      · left
        push_neg at hlen
        have hle := isPrefixOf_length_le h1
        have hlen2 : v.length = (x :: (a ++ [c])).length := by
          simp only [List.length_cons, List.length_append, List.length_cons,
            List.length_nil] at hle hlen ⊢
          omega
        have hveq : v = x :: (a ++ [c]) := by
          rw [isPrefixOf_eq_take h1, hlen2, List.take_length]
        rw [hveq]
        simp
    · rcases ih h2 with hc | hca
      · exact Or.inl hc
      · right
        simp [containsSub, hca]

theorem containsSub_cons_false {v t : Str} {c : Char} (hv : v ≠ []) (hc : c ∉ v)
    (ht : containsSub v t = false) : containsSub v (c :: t) = false := by
  simp only [containsSub, Bool.or_eq_false_iff]
  refine ⟨?_, ht⟩
  cases v with
  | nil => exact absurd rfl hv
  | cons x v' =>
    simp only [List.isPrefixOf, Bool.and_eq_false_iff]
    left
    rw [beq_eq_false_iff_ne]
    rintro rfl
    exact hc (List.mem_cons_self _ _)

theorem containsSub_concat_false {v sm : Str} {c : Char} (hv : v ≠ [])
    (hc : c ∉ v) (hs : containsSub v sm = false) :
    containsSub v (sm ++ [c]) = false := by
  by_contra h
  rw [Bool.not_eq_false] at h
  rcases containsSub_concat hv h with h1 | h2
  · exact hc h1
  · rw [h2] at hs
    simp at hs

theorem removeSubstr_of_not_contains {v s : Str} (h : containsSub v s = false) :
    removeSubstr v s = s := by
  induction s with
  | nil => simp [removeSubstr]
  | cons c t ih =>
    obtain ⟨h1, h2⟩ := containsSub_eq_false_cons h
    rw [removeSubstr, dif_neg (by simp [h1])]
    rw [ih h2]

theorem removeSubstr_self_append {v : Str} (hv : v ≠ []) (b : Str) :
    removeSubstr v (v ++ b) = removeSubstr v b := by
  cases v with
  | nil => exact absurd rfl hv
  | cons c v' =>
    have hpre : (c :: v').isPrefixOf (c :: (v' ++ b)) = true := by
      simpa using isPrefixOf_self_append (c :: v') b
    rw [List.cons_append, removeSubstr, dif_pos ⟨by simp, hpre⟩]
    congr 1
    rw [show c :: (v' ++ b) = (c :: v') ++ b from by simp]
    exact List.drop_left _ _

theorem removeSubstr_mult {v sm : Str} (hstar : '*' ∉ v) (hv : v ≠ [])
    (hnc : containsSub v (sm ++ ['*']) = false) :
    removeSubstr v (sm ++ '*' :: v) = sm ++ ['*'] := by
  induction sm with
  | nil =>
    rw [List.nil_append]
    have hnp : v.isPrefixOf ('*' :: v) = false := by
      cases v with
      | nil => exact absurd rfl hv
      | cons x v' =>
        simp only [List.isPrefixOf, Bool.and_eq_false_iff]
        left
        rw [beq_eq_false_iff_ne]
        rintro rfl
        exact hstar (List.mem_cons_self _ _)
    rw [removeSubstr, dif_neg (by simp [hnp])]
    have : removeSubstr v v = [] := by
      have := removeSubstr_self_append hv ([] : Str)
      simpa [removeSubstr] using this
    rw [this]
    rfl
  | cons x sm' ih =>
    obtain ⟨h1, h2⟩ := containsSub_eq_false_cons (by simpa using hnc)
    have hnp : v.isPrefixOf (x :: (sm' ++ '*' :: v)) = false := by
      by_contra hcon
      rw [Bool.not_eq_false] at hcon
      by_cases hlen : v.length ≤ (x :: (sm' ++ ['*'])).length
      · have hw : (x :: (sm' ++ ['*'])).isPrefixOf ((x :: (sm' ++ ['*'])) ++ v) = true :=
          isPrefixOf_self_append _ _
        have heq : (x :: (sm' ++ ['*'])) ++ v = x :: (sm' ++ '*' :: v) := by simp
        rw [heq] at hw
        have h5 := isPrefixOf_trans_le hcon hw hlen
        simp [h1] at h5
      · push_neg at hlen
        have hw : (x :: (sm' ++ ['*'])).isPrefixOf (x :: (sm' ++ '*' :: v)) = true := by
          have hw0 : (x :: (sm' ++ ['*'])).isPrefixOf ((x :: (sm' ++ ['*'])) ++ v) = true :=
            isPrefixOf_self_append _ _
          simpa using hw0
        have h6 := isPrefixOf_trans_le hw hcon (Nat.le_of_lt hlen)
        have h7 : '*' ∈ v := mem_of_isPrefixOf h6 (by simp)
        exact hstar h7
    rw [List.cons_append, removeSubstr, dif_neg (by simp [hnp])]
    rw [ih h2]
    rfl

theorem pySplit_ne_nil (c : Char) (s : Str) : pySplit c s ≠ [] := by
  induction s with
  | nil => simp [pySplit]
  | cons a t ih =>
    rw [pySplit]
    cases h : pySplit c t with
    | nil => exact absurd h ih
    | cons x xs => by_cases hac : a = c <;> simp [hac]

theorem pySplit_not_mem {c : Char} {s : Str} (h : c ∉ s) : pySplit c s = [s] := by
  induction s with
  | nil => rfl
  | cons a t ih =>
    have ha : a ≠ c := by rintro rfl; exact h (List.mem_cons_self _ _)
    have ht : c ∉ t := fun hm => h (List.mem_cons_of_mem _ hm)
    rw [pySplit, ih ht]
    simp [ha]

theorem pySplit_append {c : Char} {a : Str} (ha : c ∉ a) (b : Str) :
    pySplit c (a ++ c :: b) = a :: pySplit c b := by
  induction a with
  | nil =>
    rw [List.nil_append, pySplit]
    cases h : pySplit c b with
    | nil => exact absurd h (pySplit_ne_nil c b)
    | cons x xs => simp
  | cons x a' ih =>
    have hx : x ≠ c := by rintro rfl; exact ha (List.mem_cons_self _ _)
    have ha' : c ∉ a' := fun hm => ha (List.mem_cons_of_mem _ hm)
    rw [List.cons_append, pySplit, ih ha']
    simp [hx]

/-! ### The cost linearizer on the supported affine forms -/

theorem slopeOf_mult {v sm : Str} {m : ℚ} (hv : v ≠ []) (hsv : '*' ∉ v)
    (hsm : '*' ∉ sm) (hcm : containsSub v sm = false)
    (hm : parseFloat sm = some m) :
    slopeOf v (sm ++ '*' :: v) = some m := by
  have hmem : '*' ∈ sm ++ '*' :: v := by simp
  rw [slopeOf, if_pos hmem]
  rw [removeSubstr_mult hsv hv (containsSub_concat_false hv hsv hcm)]
  rw [List.filter_append]
  have h1 : sm.filter (fun c => decide (c ≠ '*')) = sm :=
    List.filter_eq_self.mpr (fun a ha => by
      simp only [decide_eq_true_eq]
      rintro rfl
      exact hsm ha)
  have h2 : (['*'] : Str).filter (fun c => decide (c ≠ '*')) = [] := by decide
  rw [h1, h2, List.append_nil]
  exact hm

theorem slopeOf_div {v sm : Str} {m : ℚ} (hv : v ≠ []) (hsv : '*' ∉ v)
    (hdv : '/' ∉ v) (hsm : '*' ∉ sm) (hdm : '/' ∉ sm)
    (hcm : containsSub v sm = false) (hm : parseFloat sm = some m) (hm0 : m ≠ 0) :
    slopeOf v (v ++ '/' :: sm) = some (1 / m) := by
  have hmem : '*' ∉ v ++ '/' :: sm := by
    intro hin
    rcases List.mem_append.mp hin with h | h
    · exact hsv h
    · rcases List.mem_cons.mp h with h' | h'
      · exact absurd h' (by decide)
      · exact hsm h'
  rw [slopeOf, if_neg hmem]
  rw [removeSubstr_self_append hv]
  rw [removeSubstr_of_not_contains (containsSub_cons_false hv hdv hcm)]
  have h1 : List.filter (fun c => decide (c ≠ '/')) ('/' :: sm) = sm := by
    rw [List.filter_cons_of_neg (by decide)]
    exact List.filter_eq_self.mpr (fun a ha => by
      simp only [decide_eq_true_eq]
      rintro rfl
      exact hdm ha)
  rw [h1, hm]
  simp [hm0]

/-- **C1** (amended).  For an edge whose substituted cost function renders —
with parentheses stripped — literally as `m*f+n` or `f/m+n`, in either term
order, with `m`, `n` plain numeric literals that contain no `'+'` and do not
contain the flow-parameter name as a substring (and, for the divisive form,
`m ≠ 0`), `_get_cost_function_parameters` returns exactly the slope `m`
(respectively `1/m`) and the intercept `n`.  The original claim, which also
admits scientific-notation literals such as `2e+20`, is refuted by
`c1_scientific_notation_counterexample`. -/
theorem c1_linearizer_exact_on_plain_literals
    (g sm sn v : Str) (m n : ℚ)
    (hg : containsSub v g = true)
    (hsm : parseFloat sm = some m) (hsn : parseFloat sn = some n)
    (hv : v ≠ [])
    (hpm : '+' ∉ sm) (hpn : '+' ∉ sn) (hpv : '+' ∉ v)
    (hsm1 : '*' ∉ sm) (hsv : '*' ∉ v)
    (hdm : '/' ∉ sm) (hdv : '/' ∉ v)
    (hcm : containsSub v sm = false) (hcn : containsSub v sn = false) :
    (stripParens g = sm ++ '*' :: v ++ '+' :: sn →
        get_cost_function_parameters v g = some (m, n)) ∧
    (stripParens g = sn ++ '+' :: (sm ++ '*' :: v) →
        get_cost_function_parameters v g = some (m, n)) ∧
    (m ≠ 0 → stripParens g = v ++ '/' :: sm ++ '+' :: sn →
        get_cost_function_parameters v g = some (1 / m, n)) ∧
    (m ≠ 0 → stripParens g = sn ++ '+' :: (v ++ '/' :: sm) →
        get_cost_function_parameters v g = some (1 / m, n)) := by
  have hplusMult : '+' ∉ sm ++ '*' :: v := by
    intro hin
    rcases List.mem_append.mp hin with h | h
    · exact hpm h
    · rcases List.mem_cons.mp h with h' | h'
      · exact absurd h' (by decide)
      · exact hpv h'
  have hplusDiv : '+' ∉ v ++ '/' :: sm := by
    intro hin
    rcases List.mem_append.mp hin with h | h
    · exact hpv h
    · rcases List.mem_cons.mp h with h' | h'
      · exact absurd h' (by decide)
      · exact hpm h'
  have hcMult : containsSub v (sm ++ '*' :: v) = true := by
    rw [show sm ++ '*' :: v = (sm ++ ['*']) ++ v from by simp]
    exact containsSub_append_right _ _
  have hcDiv : containsSub v (v ++ '/' :: sm) = true := containsSub_self_append _ _
  refine ⟨?_, ?_, ?_, ?_⟩
  · intro hf
    have hsplit : pySplit '+' (stripParens g) = [sm ++ '*' :: v, sn] := by
      rw [hf, show sm ++ '*' :: v ++ '+' :: sn = (sm ++ '*' :: v) ++ '+' :: sn from by simp,
        pySplit_append hplusMult, pySplit_not_mem hpn]
    rw [get_cost_function_parameters, if_pos hg, hsplit]
    simp only [hcMult, if_true]
    rw [slopeOf_mult hv hsv hsm1 hcm hsm, hsn]
  · intro hf
    have hsplit : pySplit '+' (stripParens g) = [sn, sm ++ '*' :: v] := by
      rw [hf, pySplit_append hpn, pySplit_not_mem hplusMult]
    rw [get_cost_function_parameters, if_pos hg, hsplit]
    simp only [hcn, Bool.false_eq_true, if_false]
    rw [slopeOf_mult hv hsv hsm1 hcm hsm, hsn]
  · intro hm0 hf
    have hsplit : pySplit '+' (stripParens g) = [v ++ '/' :: sm, sn] := by
      rw [hf, show v ++ '/' :: sm ++ '+' :: sn = (v ++ '/' :: sm) ++ '+' :: sn from by simp,
        pySplit_append hplusDiv, pySplit_not_mem hpn]
    rw [get_cost_function_parameters, if_pos hg, hsplit]
    simp only [hcDiv, if_true]
    rw [slopeOf_div hv hsv hdv hsm1 hdm hcm hsm hm0, hsn]
  · intro hm0 hf
    have hsplit : pySplit '+' (stripParens g) = [sn, v ++ '/' :: sm] := by
      rw [hf, pySplit_append hpn, pySplit_not_mem hplusDiv]
    rw [get_cost_function_parameters, if_pos hg, hsplit]
    simp only [hcn, Bool.false_eq_true, if_false]
    rw [slopeOf_div hv hsv hdv hsm1 hdm hcm hsm hm0, hsn]

/-- C1 witness: the amended theorem evaluated on the edge cost `(2*f)+1`
with flow parameter `f`: slope `2`, intercept `1`. -/
theorem c1_witness :
    get_cost_function_parameters "f".toList "(2*f)+1".toList = some (2, 1) := by
  have h := c1_linearizer_exact_on_plain_literals
    "(2*f)+1".toList "2".toList "1".toList "f".toList 2 1
    (by decide)
    (by simp [parseFloat, parseUnsigned, parseExpPart, digitsToNat])
    (by simp [parseFloat, parseUnsigned, parseExpPart, digitsToNat])
    (by decide) (by decide) (by decide) (by decide) (by decide) (by decide)
    (by decide) (by decide) (by decide) (by decide)
  exact h.1 (by decide)

/-- C1 counterexample: `2e+20*f+1` renders literally as `m*f+n` with the
numeric literal `m = 2e+20` (whose value `float` parses as `2·10²⁰`) and
`n = 1`, yet the linearizer does not return `(2e+20, 1)`: the `'+'` inside
the literal makes `f.split('+')` produce three pieces, so the unpacking
`m, n = f.split('+')` raises `ValueError` (the `TODO` on line 221 of the
source records this scientific-notation bug). -/
theorem c1_scientific_notation_counterexample :
    get_cost_function_parameters "f".toList "2e+20*f+1".toList = none ∧
    parseFloat "2e+20".toList = some 200000000000000000000 ∧
    parseFloat "1".toList = some 1 := by
  refine ⟨?_, ?_, ?_⟩
  · simp [get_cost_function_parameters, containsSub, stripParens, pySplit]
  · simp [parseFloat, parseUnsigned, parseExpPart, digitsToNat]
    norm_num
  · simp [parseFloat, parseUnsigned, parseExpPart, digitsToNat]

/-! ### Generic helper lemmas -/

theorem optionMapM_eq_some {α β : Type} (f : α → Option β) (g : α → β)
    (l : List α) (h : ∀ a ∈ l, f a = some (g a)) :
    optionMapM f l = some (l.map g) := by
  induction l with
  | nil => rfl
  | cons x xs ih =>
    have hx := h x (List.mem_cons_self _ _)
    have ht : ∀ a ∈ xs, f a = some (g a) := fun a ha => h a (List.mem_cons_of_mem _ ha)
    simp [optionMapM, hx, ih ht]

theorem dictGet_dictSet_same {β : Type} (k : Str) (v : β) (d : List (Str × β)) :
    dictGet k (dictSet k v d) = some v := by
  induction d with
  | nil => simp [dictSet, dictGet]
  | cons kv rest ih =>
    by_cases hk : kv.1 = k
    · simp [dictSet, dictGet, hk]
    · simp [dictSet, dictGet, hk, ih]

theorem getD_append_length {α : Type} (l : List α) (c x : α) :
    (l ++ [c]).getD l.length x = c := by
  induction l with
  | nil => rfl
  | cons a t ih => simpa using ih

theorem set_append_length {α : Type} (l : List α) (c y : α) :
    (l ++ [c]).set l.length y = l ++ [y] := by
  induction l with
  | nil => rfl
  | cons a t ih => simp [List.set, ih]

theorem parseLines_append (flow : ℚ) (i : Nat) (st : PState) (xs ys : List Str) :
    parseLines flow i st (xs ++ ys) =
      (match parseLines flow i st xs with
       | .ok st' => parseLines flow (i + xs.length) st' ys
       | .error e => .error e) := by
  induction xs generalizing i st with
  | nil => simp [parseLines]
  | cons l ls ih =>
    rw [List.cons_append]
    rw [parseLines]
    conv_rhs => rw [parseLines]
    cases h : processLine flow i st l with
    | ok st' =>
      dsimp only
      rw [ih]
      have h2 : i + 1 + ls.length = i + (l :: ls).length := by
        simp [List.length_cons]
        omega
      rw [h2]
    | error e => rfl

/-! ### C7: constant cost functions -/

/-- **C7** (amended).  If the substituted cost function's rendering `f` no
longer contains the flow-parameter name and is a single numeric literal
(i.e. `float(f)` parses it, to the value `val`), the linearizer returns
slope `0` and intercept `val`.  The original claim — intercept equal to the
exact numeric value of *any* flow-free simplified expression — is refuted by
`c7_nonliteral_constant_counterexample`: a flow-free rendering that is not a
single literal makes `float(f)` raise `ValueError`. -/
theorem c7_constant_literal_linearization (v f : Str) (val : ℚ)
    (hvf : containsSub v f = false) (hp : parseFloat f = some val) :
    get_cost_function_parameters v f = some (0, val) := by
  rw [get_cost_function_parameters, if_neg (by simp [hvf]), hp]
  rfl

/-- C7 witness: the flow-free rendering `7.5` linearizes to slope `0`,
intercept `7.5`. -/
theorem c7_witness :
    get_cost_function_parameters "f".toList "7.5".toList = some (0, 15/2) := by
  exact c7_constant_literal_linearization "f".toList "7.5".toList (15/2) (by decide)
    (by simp [parseFloat, parseUnsigned, parseExpPart, digitsToNat]; norm_num)

/-- C7 counterexample: the rendering `(2.0+3.0)` contains no flow parameter
`f` and its exact numeric value is `5`, but the linearizer returns no
parameters at all: `float('(2.0+3.0)')` raises `ValueError` (the source
never folds constant expressions — it calls `substitute`, not `simplify`),
so the claimed `(0, 5)` is not produced. -/
theorem c7_nonliteral_constant_counterexample :
    containsSub "f".toList "(2.0+3.0)".toList = false ∧
    get_cost_function_parameters "f".toList "(2.0+3.0)".toList = none := by
  refine ⟨by decide, ?_⟩
  simp [get_cost_function_parameters, containsSub, parseFloat, parseUnsigned,
    parseExpPart, digitsToNat, stripParens, pySplit]

/-! ### C10 and C6: post-solve normalization -/

/-- **C10**.  When the OD demands sum to zero (in particular for an empty OD
mapping or all-zero demands), `sum_flows` is `0` (line 167) and a successful
backend solve makes `solve` compute `solution.get_objective_value() /
self.sum_flows` (line 284) with no guard: Python raises `ZeroDivisionError`
for float division by zero, so no System-Optimal value is produced. -/
theorem c10_zero_demand_division_error (od : List (Str × ℚ)) (obj : ℚ)
    (h : (od.map Prod.snd).sum = 0) :
    solveStep (some obj) (initSOState od) = .zeroDivisionError := by
  simp [solveStep, initSOState, h]

/-- C10 witness: an empty OD mapping and a backend objective of `5`. -/
theorem c10_witness :
    solveStep (some 5) (initSOState []) = .zeroDivisionError :=
  c10_zero_demand_division_error [] 5 (by simp)

/-- **C6** (amended).  When the backend returns no solution, `solve` only
prints `'Error calculating System Optimum!'` and leaves the state unchanged,
so `system_optimum` keeps the `-1` set in `__init__` and
`get_system_optimum` returns that numeric sentinel. -/
theorem c6_no_solution_keeps_sentinel (od : List (Str × ℚ)) :
    solveStep none (initSOState od) = .noSolutionPrinted (initSOState od) ∧
    get_system_optimum (initSOState od) = -1 :=
  ⟨rfl, rfl⟩

/-- C6 counterexample: after a failed solve on the OD matrix
`{"A|B": 10}`, `get_system_optimum` returns `-1` — the numeric
pre-solve sentinel of line 166, not a distinguishable non-numeric
"no solution" outcome, refuting the claim that the solver never surfaces
the sentinel as if it were a value. -/
theorem c6_sentinel_counterexample :
    solveStep none (initSOState [("A|B".toList, 10)]) =
      .noSolutionPrinted (initSOState [("A|B".toList, 10)]) ∧
    get_system_optimum (initSOState [("A|B".toList, 10)]) = -1 ∧
    (initSOState []).system_optimum = -1 :=
  ⟨rfl, rfl, rfl⟩

/-! ### C4: cost-epigraph constraints -/

/-- **C4**.  For every edge `e`, `_generate_cost_constraint` adds exactly one
epigraph constraint `m*l_e² + n*l_e ≤ phi_e` where `(m, n)` is exactly what
the cost linearizer returns for `e` — one constraint per edge, in edge
order, provided linearization succeeds on every edge (otherwise the
exception propagates and no constraint set is produced). -/
theorem c4_cost_epigraph_constraints (render : PEdge → Str) (edges : List PEdge)
    (mn : PEdge → ℚ × ℚ)
    (h : ∀ e ∈ edges, get_cost_function_parameters e.var (render e) = some (mn e)) :
    generate_cost_constraint render edges =
      some (edges.map (fun e =>
        ⟨[(lVarName e, 2, (mn e).1), (lVarName e, 1, (mn e).2)], phiVarName e⟩)) := by
  apply optionMapM_eq_some
  intro e he
  rw [h e he]
  rfl

/-- C4 witness: a single edge `A→B` with rendered cost `2*f+1` yields the one
constraint `2·l_AB² + 1·l_AB ≤ phi_AB`. -/
theorem c4_witness :
    generate_cost_constraint (fun _ => "2*f+1".toList)
      [⟨"A-B".toList, "A".toList, "B".toList, ⟨"f".toList, [], "2*f+1".toList⟩,
        "f".toList, 0⟩] =
      some [⟨[("l_AB".toList, 2, 2), ("l_AB".toList, 1, 1)], "phi_AB".toList⟩] := by
  have h := c4_cost_epigraph_constraints (fun _ => "2*f+1".toList)
    [⟨"A-B".toList, "A".toList, "B".toList, ⟨"f".toList, [], "2*f+1".toList⟩,
      "f".toList, 0⟩]
    (fun _ => (2, 1))
    (by
      intro e he
      rw [List.mem_singleton] at he
      subst he
      simp [get_cost_function_parameters, containsSub, stripParens, pySplit, slopeOf,
        removeSubstr, parseFloat, parseUnsigned, parseExpPart, digitsToNat])
  simpa [lVarName, phiVarName, cplexVarName] using h

/-! ### C2: flow-conservation constraints -/

theorem sum_demand_zero_none (a b : Str) (d : ℚ) :
    ∀ l : List Str, a ∉ l → b ∉ l →
      ((l.map (fun n => if n = a then -d else if n = b then d else 0)).sum = 0) := by
  intro l
  induction l with
  | nil => simp
  | cons x xs ih =>
    intro ha hb
    rw [List.mem_cons, not_or] at ha hb
    rw [List.map_cons, List.sum_cons, if_neg (fun h => ha.1 h.symm),
      if_neg (fun h => hb.1 h.symm), ih ha.2 hb.2]
    simp

theorem sum_demand_only_b (a b : Str) (d : ℚ) :
    ∀ l : List Str, l.Nodup → b ∈ l → a ∉ l →
      ((l.map (fun n => if n = a then -d else if n = b then d else 0)).sum = d) := by
  intro l
  induction l with
  | nil => intro _ hb; simp at hb
  | cons x xs ih =>
    intro hnd hb ha
    rw [List.mem_cons, not_or] at ha
    rw [List.nodup_cons] at hnd
    rcases List.mem_cons.mp hb with rfl | hbxs
    · rw [List.map_cons, List.sum_cons, if_neg (fun h => ha.1 h.symm), if_pos rfl,
        sum_demand_zero_none a b d xs ha.2 hnd.1]
      simp
    · have hxb : x ≠ b := fun h => hnd.1 (h ▸ hbxs)
      rw [List.map_cons, List.sum_cons, if_neg (fun h => ha.1 h.symm), if_neg hxb,
        ih hnd.2 hbxs ha.2]
      simp

theorem sum_demand_only_a (a b : Str) (d : ℚ) :
    ∀ l : List Str, l.Nodup → a ∈ l → b ∉ l →
      ((l.map (fun n => if n = a then -d else if n = b then d else 0)).sum = -d) := by
  intro l
  induction l with
  | nil => intro _ ha; simp at ha
  | cons x xs ih =>
    intro hnd ha hb
    rw [List.mem_cons, not_or] at hb
    rw [List.nodup_cons] at hnd
    rcases List.mem_cons.mp ha with rfl | haxs
    · rw [List.map_cons, List.sum_cons, if_pos rfl,
        sum_demand_zero_none a b d xs hnd.1 hb.2]
      simp
    · have hxa : x ≠ a := fun h => hnd.1 (h ▸ haxs)
      rw [List.map_cons, List.sum_cons, if_neg hxa, if_neg (fun h => hb.1 h.symm),
        ih hnd.2 haxs hb.2]
      simp

theorem sum_demand_pair (a b : Str) (d : ℚ) (hab : a ≠ b) :
    ∀ l : List Str, l.Nodup → a ∈ l → b ∈ l →
      ((l.map (fun n => if n = a then -d else if n = b then d else 0)).sum = 0) := by
  intro l
  induction l with
  | nil => intro _ ha; simp at ha
  | cons x xs ih =>
    intro hnd ha hb
    rw [List.nodup_cons] at hnd
    rcases List.mem_cons.mp ha with rfl | haxs
    · have hbxs : b ∈ xs := by
        rcases List.mem_cons.mp hb with h | h
        · exact absurd h.symm hab
        · exact h
      rw [List.map_cons, List.sum_cons, if_pos rfl,
        sum_demand_only_b a b d xs hnd.2 hbxs hnd.1]
      ring
    · rcases List.mem_cons.mp hb with rfl | hbxs
      · rw [List.map_cons, List.sum_cons, if_neg (fun h => hab h.symm), if_pos rfl,
          sum_demand_only_a a b d xs hnd.2 haxs hnd.1]
        ring
      · have hxa : x ≠ a := fun h => hnd.1 (h ▸ haxs)
        have hxb : x ≠ b := fun h => hnd.1 (h ▸ hbxs)
        rw [List.map_cons, List.sum_cons, if_neg hxa, if_neg hxb, ih hnd.2 haxs hbxs]
        simp

theorem mkFlowCons_eq_spec (edges : List PEdge) (k : Str) (d : ℚ) (a b n : Str)
    (hk : pySplit '|' k = [a, b])
    (hloop : ∀ e ∈ edges, e.start ≠ e.end_) :
    mkFlowCons edges k d n = some (specFlowCons edges k d a b n) := by
  have hterms : fcTerms edges k n =
      (edges.filter (fun e => decide (e.end_ = n))).map (fun e => (e.name ++ k, (1:ℤ)))
        ++ (edges.filter (fun e => decide (e.start = n))).map
            (fun e => (e.name ++ k, (-1:ℤ))) := by
    simp only [fcTerms]
    congr 2
    apply List.filter_congr
    intro e he
    by_cases hend : e.end_ = n
    · have hs : ¬ e.start = n := fun h => hloop e he (by rw [h, hend])
      simp [hend, hs]
    · simp [hend]
  have ho : odOrigin k = a := by rw [odOrigin, hk]; rfl
  have hd : odDest k = some b := by rw [odDest, hk]; rfl
  by_cases hna : n = a
  · rw [mkFlowCons, if_pos (by rw [ho]; exact hna), specFlowCons, hterms]
    simp [hna]
  · rw [mkFlowCons, if_neg (by rw [ho]; exact hna), hd, specFlowCons, hterms]
    simp [hna]

/-- **C2** (amended).  For well-formed inputs — distinct node names, every OD
key of the exact shape `origin|destination` with origin and destination
distinct declared nodes, and no self-loop edge —
`_generate_flow_conservation_constraint` emits exactly one equality
constraint per (OD pair, node), in loop order, and each constraint is
exactly the one the specification states (`specFlowCons`): left side the sum
of `x_{e,k}` over edges arriving at `n` minus the sum over edges leaving
`n`, right side `-demand` at the origin, `+demand` at the destination, `0`
elsewhere; for each OD pair the right-hand sides sum to `0` over all nodes.
The original unconditional claim fails for a self-loop edge, which the code
classifies only as leaving: see `c2_self_loop_counterexample`. -/
theorem c2_flow_conservation_constraints (nodes : List Str) (edges : List PEdge)
    (od : List (Str × ℚ)) (ob db : Str → Str)
    (hk : ∀ kd ∈ od, pySplit '|' kd.1 = [ob kd.1, db kd.1])
    (hloop : ∀ e ∈ edges, e.start ≠ e.end_)
    (hnd : nodes.Nodup)
    (hmem : ∀ kd ∈ od, ob kd.1 ∈ nodes ∧ db kd.1 ∈ nodes ∧ ob kd.1 ≠ db kd.1) :
    generate_flow_conservation_constraint nodes edges od =
      some ((od.map (fun kd =>
        nodes.map (specFlowCons edges kd.1 kd.2 (ob kd.1) (db kd.1)))).flatten) ∧
    ∀ kd ∈ od,
      ((nodes.map (fun n =>
        (specFlowCons edges kd.1 kd.2 (ob kd.1) (db kd.1) n).rhs)).sum = 0) := by
  constructor
  · have hout : optionMapM
        (fun kd => optionMapM (fun n => mkFlowCons edges kd.1 kd.2 n) nodes) od
        = some (od.map (fun kd =>
            nodes.map (specFlowCons edges kd.1 kd.2 (ob kd.1) (db kd.1)))) := by
      apply optionMapM_eq_some
      intro kd hkd
      apply optionMapM_eq_some
      intro n _
      exact mkFlowCons_eq_spec edges kd.1 kd.2 _ _ n (hk kd hkd) hloop
    rw [generate_flow_conservation_constraint, hout]
    rfl
  · intro kd hkd
    have h := hmem kd hkd
    have hfun : (fun n => (specFlowCons edges kd.1 kd.2 (ob kd.1) (db kd.1) n).rhs)
        = (fun n => if n = ob kd.1 then -kd.2 else if n = db kd.1 then kd.2 else 0) := by
      funext n
      rw [specFlowCons]
    rw [hfun]
    exact sum_demand_pair _ _ _ h.2.2 nodes hnd h.1 h.2.1

/-- C2 witness: nodes `A`, `B`, one edge `A→B`, demand `A|B = 3`: the two
generated constraints are `-x_{A-B} = -3` at `A` and `x_{A-B} = 3` at `B`,
and their right-hand sides sum to zero. -/
theorem c2_witness :
    generate_flow_conservation_constraint ["A".toList, "B".toList]
      [⟨"A-B".toList, "A".toList, "B".toList, ⟨"f".toList, [], "f".toList⟩,
        "f".toList, 0⟩]
      [("A|B".toList, 3)] =
      some [⟨"AA|B".toList, [("A-BA|B".toList, -1)], -3⟩,
            ⟨"BA|B".toList, [("A-BA|B".toList, 1)], 3⟩] ∧
    ((["A".toList, "B".toList].map (fun n =>
        (specFlowCons
          [⟨"A-B".toList, "A".toList, "B".toList, ⟨"f".toList, [], "f".toList⟩,
            "f".toList, 0⟩]
          "A|B".toList 3 "A".toList "B".toList n).rhs)).sum = 0) := by
  have h := c2_flow_conservation_constraints ["A".toList, "B".toList]
    [⟨"A-B".toList, "A".toList, "B".toList, ⟨"f".toList, [], "f".toList⟩,
      "f".toList, 0⟩]
    [("A|B".toList, 3)] (fun _ => "A".toList) (fun _ => "B".toList)
    (by intro kd hkd; rw [List.mem_singleton] at hkd; subst hkd; decide)
    (by intro e he; rw [List.mem_singleton] at he; subst he; decide)
    (by decide)
    (by intro kd hkd; refine ⟨?_, ?_, ?_⟩ <;> simp)
  refine ⟨?_, h.2 ("A|B".toList, 3) (List.mem_singleton_self _)⟩
  rw [h.1]
  decide

/-- C2 counterexample: with the self-loop edge `A→A` and OD pair `A|B`, the
constraint generated at node `A` gives `x_{A-A}` the coefficient `-1`
(the `elif` classifies a self-loop only as leaving), whereas the claimed
left side — arriving sum minus leaving sum — would give it `+1 − 1`; the
generated constraints therefore differ from the claimed ones. -/
theorem c2_self_loop_counterexample :
    generate_flow_conservation_constraint ["A".toList, "B".toList]
      [⟨"A-A".toList, "A".toList, "A".toList, ⟨"f".toList, [], "f".toList⟩,
        "f".toList, 0⟩]
      [("A|B".toList, 1)] ≠
    some (List.flatten
      ([("A|B".toList, (1:ℚ))].map (fun kd =>
        ["A".toList, "B".toList].map
          (specFlowCons
            [⟨"A-A".toList, "A".toList, "A".toList, ⟨"f".toList, [], "f".toList⟩,
              "f".toList, 0⟩]
            kd.1 kd.2 "A".toList "B".toList)))) := by
  simp only [generate_flow_conservation_constraint, optionMapM, mkFlowCons, fcTerms,
    odOrigin, odDest, pySplit, specFlowCons, List.map, List.flatten, List.filter]
  decide

/-! ### C3: od lines -/

/-- **C3** (amended).  An `od <name> <origin> <dest> <demand>` line whose
origin and destination differ stores the demand in the OD mapping keyed by
the line's `<name>` token (`OD[taglist[1]]`, line 145) — which is only by
convention the string `"origin|destination"` — and a line with
`origin == dest` stores nothing.  The original claim, that the entry is
keyed by `"origin|destination"` built from the line's origin and
destination tokens, is refuted by `c3_key_counterexample`. -/
theorem c3_od_line_keyed_by_name (flow : ℚ) (i : Nat) (st : PState) (raw : Str)
    (nm o d dm : Str) (rest2 : List Str) (q : ℚ)
    (htok : pyWords ((pyRstrip raw).takeWhile (fun c => decide (c ≠ '#'))) =
      "od".toList :: nm :: o :: d :: dm :: rest2)
    (hq : parseFloat dm = some q) :
    (o ≠ d → processLine flow i st raw = .ok { st with OD := dictSet nm q st.OD }) ∧
    (o = d → processLine flow i st raw = .ok st) := by
  constructor
  · intro hod
    simp only [processLine, htok, if_true]
    rw [if_neg (by decide), if_neg (by decide), if_neg (by decide), if_pos hod, hq]
  · intro hod
    simp only [processLine, htok, if_true]
    rw [if_neg (by decide), if_neg (by decide), if_neg (by decide),
      if_neg (fun hc => hc hod)]

/-- C3 witness: `od P A B 7` stores demand `7` under key `P`;
`od P A A 7` stores nothing. -/
theorem c3_witness :
    processLine 0 1 emptyPState "od P A B 7".toList =
      .ok { emptyPState with OD := [("P".toList, 7)] } ∧
    processLine 0 1 emptyPState "od P A A 7".toList = .ok emptyPState := by
  have h1 := c3_od_line_keyed_by_name 0 1 emptyPState "od P A B 7".toList
    "P".toList "A".toList "B".toList "7".toList [] 7
    (by simp [pyRstrip, pyWords])
    (by simp [parseFloat, parseUnsigned, parseExpPart, digitsToNat])
  have h2 := c3_od_line_keyed_by_name 0 1 emptyPState "od P A A 7".toList
    "P".toList "A".toList "A".toList "7".toList [] 7
    (by simp [pyRstrip, pyWords])
    (by simp [parseFloat, parseUnsigned, parseExpPart, digitsToNat])
  exact ⟨h1.1 (by decide), h2.2 rfl⟩

/-- C3 counterexample: the line `od X A B 10` yields an OD mapping keyed by
the name token `X`, not by `"A|B"` — looking up `"A|B"` finds nothing,
refuting the claim that every `od` line produces an entry keyed
`"origin|destination"`. -/
theorem c3_key_counterexample :
    generateGraph ["od X A B 10".toList] 0 =
      .ok ⟨[], [], [], [("X".toList, 10)], []⟩ ∧
    dictGet "A|B".toList [("X".toList, (10:ℚ))] = none ∧
    dictGet "X".toList [("X".toList, (10:ℚ))] = some 10 := by
  refine ⟨?_, by decide, by decide⟩
  simp [generateGraph, parseLines, processLine, emptyPState, pyRstrip, pyWords,
    parseFloat, parseUnsigned, parseExpPart, digitsToNat, dictSet]

/-! ### C5: edge lines and the shared parameter dictionary -/

/-- **C5** (amended).  An undirected `edge` declaration appends exactly two
directed edges, `start→end` and `end→start`, sharing the same cost-function
template — but they also share one and the same `param_values` dictionary
(the single `param_values` built on line 134 is passed to both `Edge`
constructors, lines 139-141), not independent mappings: after
`update_cost` overwrites the flow entry through the first edge, reading the
dictionary through the second edge's reference sees the new value.  The
original independent-mappings claim is refuted by
`c5_shared_mapping_counterexample`. -/
theorem c5_edge_line_shared_mapping (flow : ℚ) (i : Nat) (st : PState) (raw : Str)
    (nm s t fn : Str) (ctoks : List Str) (fd : FuncDef) (pairs : List (Str × ℚ))
    (htok : pyWords ((pyRstrip raw).takeWhile (fun c => decide (c ≠ '#'))) =
      "edge".toList :: nm :: s :: t :: fn :: ctoks)
    (hfd : dictGet fn st.F = some fd)
    (hzip : zipParse (List.zip fd.constants ctoks) = .ok pairs) :
    processLine flow i st raw = .ok { st with
      E := st.E ++ [⟨s ++ '-' :: t, s, t, fd, fd.param, st.heap.length⟩,
                    ⟨t ++ '-' :: s, t, s, fd, fd.param, st.heap.length⟩],
      heap := st.heap ++ [dictSet fd.param 0 (dictSet fd.param 0 (dictSet fd.param flow
        (pairs.foldl (fun dd cq => dictSet cq.1 cq.2 dd) [])))] } ∧
    ∀ q : ℚ,
      dictGet fd.param
        ((update_cost ⟨s ++ '-' :: t, s, t, fd, fd.param, st.heap.length⟩ q
            (st.heap ++ [dictSet fd.param 0 (dictSet fd.param 0 (dictSet fd.param flow
              (pairs.foldl (fun dd cq => dictSet cq.1 cq.2 dd) [])))])).getD
          ((⟨t ++ '-' :: s, t, s, fd, fd.param, st.heap.length⟩ : PEdge).paramsRef) [])
        = some q := by
  constructor
  · simp only [processLine, htok, if_true, or_true, true_or]
    rw [if_neg (by decide), if_neg (by decide), hfd]
    dsimp only
    rw [hzip]
  · intro q
    rw [update_cost]
    dsimp only
    rw [getD_append_length, set_append_length, getD_append_length]
    exact dictGet_dictSet_same _ _ _

/-- C5 witness: the line `edge e A B g 3` (with `g(f) = f+c` already
declared) appends the two directed edges `A-B` and `B-A`, both referencing
heap cell `0` holding `{c: 3, f: 0}`; updating the flow entry through the
first edge makes a read through that shared cell return the new value. -/
theorem c5_witness :
    processLine 0 2
      ⟨[], [], [("g".toList, ⟨"f".toList, ["c".toList], "f+c".toList⟩)], [], []⟩
      "edge e A B g 3".toList =
      .ok ⟨[],
        [⟨"A-B".toList, "A".toList, "B".toList,
           ⟨"f".toList, ["c".toList], "f+c".toList⟩, "f".toList, 0⟩,
         ⟨"B-A".toList, "B".toList, "A".toList,
           ⟨"f".toList, ["c".toList], "f+c".toList⟩, "f".toList, 0⟩],
        [("g".toList, ⟨"f".toList, ["c".toList], "f+c".toList⟩)], [],
        [[("c".toList, 3), ("f".toList, 0)]]⟩ ∧
    dictGet "f".toList
      ((update_cost
          ⟨"A-B".toList, "A".toList, "B".toList,
            ⟨"f".toList, ["c".toList], "f+c".toList⟩, "f".toList, 0⟩ 5
          [[("c".toList, 3), ("f".toList, 0)]]).getD 0 []) = some 5 := by
  have h := c5_edge_line_shared_mapping 0 2
    ⟨[], [], [("g".toList, ⟨"f".toList, ["c".toList], "f+c".toList⟩)], [], []⟩
    "edge e A B g 3".toList
    "e".toList "A".toList "B".toList "g".toList ["3".toList]
    ⟨"f".toList, ["c".toList], "f+c".toList⟩ [("c".toList, 3)]
    (by simp [pyRstrip, pyWords])
    (by decide)
    (by simp [zipParse, parseFloat, parseUnsigned, parseExpPart, digitsToNat, Except.map])
  exact ⟨h.1, h.2 5⟩

/-- C5 counterexample: parsing `edge e A B g 3` gives two edges with the
*same* `paramsRef`; the shared cell initially holds flow entry `0`, and
after `update_cost` through the `A-B` edge sets it to `5`, reading through
the `B-A` edge's reference returns `5`, not the unchanged `0` — refuting
the claim that the two edges have independent parameter mappings. -/
theorem c5_shared_mapping_counterexample :
    generateGraph ["function g (f) f+c".toList, "edge e A B g 3".toList] 0 =
      .ok ⟨[],
        [⟨"A-B".toList, "A".toList, "B".toList,
           ⟨"f".toList, ["c".toList], "f+c".toList⟩, "f".toList, 0⟩,
         ⟨"B-A".toList, "B".toList, "A".toList,
           ⟨"f".toList, ["c".toList], "f+c".toList⟩, "f".toList, 0⟩],
        [("g".toList, ⟨"f".toList, ["c".toList], "f+c".toList⟩)], [],
        [[("c".toList, 3), ("f".toList, 0)]]⟩ ∧
    (⟨"A-B".toList, "A".toList, "B".toList,
       ⟨"f".toList, ["c".toList], "f+c".toList⟩, "f".toList, 0⟩ : PEdge).paramsRef =
      (⟨"B-A".toList, "B".toList, "A".toList,
        ⟨"f".toList, ["c".toList], "f+c".toList⟩, "f".toList, 0⟩ : PEdge).paramsRef ∧
    dictGet "f".toList
      ([[("c".toList, (3:ℚ)), ("f".toList, 0)]].getD
        ((⟨"B-A".toList, "B".toList, "A".toList,
           ⟨"f".toList, ["c".toList], "f+c".toList⟩, "f".toList, 0⟩ : PEdge).paramsRef) [])
      = some 0 ∧
    dictGet "f".toList
      ((update_cost
          (⟨"A-B".toList, "A".toList, "B".toList,
            ⟨"f".toList, ["c".toList], "f+c".toList⟩, "f".toList, 0⟩ : PEdge) 5
          [[("c".toList, 3), ("f".toList, 0)]]).getD
        ((⟨"B-A".toList, "B".toList, "A".toList,
           ⟨"f".toList, ["c".toList], "f+c".toList⟩, "f".toList, 0⟩ : PEdge).paramsRef) [])
      = some 5 := by
  refine ⟨?_, rfl, by decide, by decide⟩
  simp [generateGraph, parseLines, processLine, emptyPState, pyRstrip, pyWords,
    parseFloat, parseUnsigned, parseExpPart, digitsToNat, dictSet, dictGet,
    exprVars, exprVarsAux, dedupKeepFirst, isIdentChar, removeFirst, zipParse,
    pySplit, Except.map]

/-! ### C8: multi-parameter function lines -/

/-- **C8** (amended).  A `function` line declaring more than one parameter
makes parsing fail immediately — the raised exception aborts the loop, no
partial graph is returned, and any later lines are never processed — but
the error carries only the declared parameter names (lines 113-114
interpolate `str(params)` into the message), not the offending line's
number and text, which only the unknown-keyword error of lines 148-149
carries.  The original carries-line-number claim is refuted by
`c8_no_line_info_counterexample`. -/
theorem c8_multi_param_aborts (flow : ℚ) (pre post : List Str) (raw : Str)
    (st : PState) (nm ps : Str) (rest2 : List Str)
    (hpre : parseLines flow 1 emptyPState pre = .ok st)
    (htok : pyWords ((pyRstrip raw).takeWhile (fun c => decide (c ≠ '#'))) =
      "function".toList :: nm :: ps :: rest2)
    (hmulti : (pySplit ',' ((ps.drop 1).dropLast)).length > 1) :
    generateGraph (pre ++ raw :: post) flow =
      .error (.multiParam (pySplit ',' ((ps.drop 1).dropLast))) ∧
    errLineInfo (.multiParam (pySplit ',' ((ps.drop 1).dropLast))) = none := by
  refine ⟨?_, rfl⟩
  rw [generateGraph, parseLines_append, hpre]
  simp only [parseLines, processLine, htok, if_true]
  rw [if_pos hmulti]

/-- C8 witness: the file consisting of the single line
`function g (a,b) a+b` aborts with the multi-parameter error carrying the
parameter names `a`, `b` and no line information. -/
theorem c8_witness :
    generateGraph ["function g (a,b) a+b".toList] 0 =
      .error (.multiParam [['a'], ['b']]) ∧
    errLineInfo (.multiParam [['a'], ['b']]) = none := by
  have h := c8_multi_param_aborts 0 [] [] "function g (a,b) a+b".toList emptyPState
    "g".toList "(a,b)".toList ["a+b".toList] rfl
    (by simp [pyRstrip, pyWords]) (by decide)
  simpa using h

/-- C8 counterexample: for the multi-parameter line `function h (x,y) x+y`
the raised error is `multiParam [x, y]`: it interpolates the parameter
names and carries no line number or line text (`errLineInfo` is `none`),
refuting the claim that this failure reports the offending line's number
and text. -/
theorem c8_no_line_info_counterexample :
    generateGraph ["function h (x,y) x+y".toList] 0 =
      .error (.multiParam [['x'], ['y']]) ∧
    errLineInfo (.multiParam [['x'], ['y']]) = none := by
  refine ⟨?_, rfl⟩
  simp [generateGraph, parseLines, processLine, emptyPState, pyRstrip, pyWords, pySplit]

/-! ### C9: undeclared references from edge lines -/

/-- **C9** (amended).  A `dedge` or `edge` line that references a
cost-function name not declared on an earlier line aborts parsing with the
propagated `KeyError` of the `F[taglist[4]]` lookup, and no partial graph
is returned.  Start/end node names, however, are not validated at all —
an edge line may reference never-declared nodes and parsing succeeds, as
`c9_undeclared_node_counterexample` shows, refuting that half of the
original claim. -/
theorem c9_unknown_function_aborts (flow : ℚ) (pre post : List Str) (raw : Str)
    (st : PState) (kw nm s t fn : Str) (ctoks : List Str)
    (hpre : parseLines flow 1 emptyPState pre = .ok st)
    (hkw : kw = "dedge".toList ∨ kw = "edge".toList)
    (htok : pyWords ((pyRstrip raw).takeWhile (fun c => decide (c ≠ '#'))) =
      kw :: nm :: s :: t :: fn :: ctoks)
    (hfn : dictGet fn st.F = none) :
    generateGraph (pre ++ raw :: post) flow = .error (.keyError fn) := by
  rw [generateGraph, parseLines_append, hpre]
  rcases hkw with rfl | rfl <;>
    (simp only [parseLines, processLine, htok, if_true, or_true, true_or]
     rw [if_neg (by decide), if_neg (by decide), hfn])

/-- C9 witness: the single-line file `dedge e A B g` fails with
`KeyError: g`, since no function `g` was declared. -/
theorem c9_witness :
    generateGraph ["dedge e A B g".toList] 0 = .error (.keyError "g".toList) :=
  c9_unknown_function_aborts 0 [] [] "dedge e A B g".toList emptyPState
    "dedge".toList "e".toList "A".toList "B".toList "g".toList [] rfl
    (Or.inl rfl) (by simp [pyRstrip, pyWords]) rfl

/-- C9 counterexample: `dedge e A B g` with `g` declared but with nodes `A`
and `B` never declared parses successfully (the node list stays empty and
the edge is created anyway) — parsing does not fail on out-of-order or
missing node references, refuting that half of the claim. -/
theorem c9_undeclared_node_counterexample :
    generateGraph ["function g (f) f".toList, "dedge e A B g".toList] 0 =
      .ok ⟨[],
        [⟨"A-B".toList, "A".toList, "B".toList, ⟨"f".toList, [], "f".toList⟩,
          "f".toList, 0⟩],
        [("g".toList, ⟨"f".toList, [], "f".toList⟩)], [], [[("f".toList, 0)]]⟩ := by
  simp [generateGraph, parseLines, processLine, emptyPState, pyRstrip, pyWords,
    parseFloat, parseUnsigned, parseExpPart, digitsToNat, dictSet, dictGet,
    exprVars, exprVarsAux, dedupKeepFirst, isIdentChar, removeFirst, zipParse,
    pySplit, Except.map]

end SO
